import Mathlib

/-!
Verification development for the `estimate-tool` repository.

The repository turns a flat list of cost-estimate line items (a pandas
DataFrame read from a spreadsheet) into a paginated PDF.  The parts with
algorithmic content are shallowly embedded here, translated from the
Python source:

* `src/modules/calc_logic.py` — `parse_amount` (currency-string parsing)
  and `renumber_sort_keys` (sort-key renumbering);
* `src/app.py` — `EstimatePDFGenerator.draw_detail_pages` (the block
  sequencer with control breaks on the L3/L4 classification keys, and the
  page-layout loop with page breaks, continuation headers, force-stay and
  bottom-stickiness);
* `src/pdf_exporter.py` — `EstimatePDFGenerator.draw_detail_table`
  (a second variant of the control-break loop) and `_draw_total_block`
  (the trailing totals block).

Modelling conventions:
* Python floats are modelled exactly.  Monetary amounts flowing through
  the sequencer are integers in the source (`見積金額` is produced by
  `calculate_dataframe` with `.astype(int)`), so item amounts are `Int`.
  Vertical coordinates are modelled as exact rationals; the source's
  layout constants (multiples of ReportLab's `mm = 72/25.4` points) are
  exact rationals, and all comparisons made by the source are far from the
  float-rounding scale, so branch outcomes agree with the float program.
* Python `str.strip()` is modelled on ASCII whitespace (`pyStrip`); the
  classification keys and numeric strings of this application are covered
  by that fragment.
-/

namespace EstimateTool

/-! ## Python value and float model, for `parse_amount`

`parse_amount` (src/modules/calc_logic.py lines 5-17; near-identical
variants in src/data_utils.py lines 14-19 and src/app.py lines 50-55)
receives a spreadsheet cell: a string, a number, or a missing value.
-/

/-- Result domain of Python `float(...)`: a finite value (exact rational),
NaN, or a signed infinity. -/
inductive PyFloat where
  | fin (q : ℚ)
  | nan
  | inf (neg : Bool)
deriving DecidableEq, Repr

/-- A spreadsheet cell as seen by `parse_amount`: a string, a (non-NaN)
number, the float NaN, or None.  For a numeric input `x`, `str(x)` is the
repr of `x`, and `float(str(x))` round-trips to `x`; the embedding uses
that shortcut for the `num` constructor. -/
inductive PyVal where
  | str (s : String)
  | num (q : ℚ)
  | nanVal
  | noneVal
deriving DecidableEq, Repr

/-- ASCII whitespace, the fragment of Python's `str.strip` relevant here. -/
def isPyWs (c : Char) : Bool :=
  c == ' ' || c == '\t' || c == '\n' || c == '\r' || c == '\x0b' || c == '\x0c'

/-- Python `str.strip()` (ASCII-whitespace fragment). -/
def pyStrip (s : String) : String :=
  String.mk (((s.toList.dropWhile isPyWs).reverse.dropWhile isPyWs).reverse)

/-- `s.replace('¥', '').replace(',', '')`: both patterns are single
characters, so replacement by the empty string is a character filter. -/
def cleanChars (s : String) : String :=
  String.mk (s.toList.filter (fun c => c != '¥' && c != ','))

def isDigitCh (c : Char) : Bool := '0' ≤ c && c ≤ '9'

/-- Digit run with Python-style underscores (an underscore is allowed only
between two digits).  Returns the accumulated value, the number of digits
consumed, and the unconsumed rest; a malformed underscore stops the run so
that the leftover input makes the whole parse fail. -/
def digRun : Nat → Nat → List Char → Nat × Nat × List Char
  | v, n, [] => (v, n, [])
  | v, n, [c] =>
    if isDigitCh c then (10 * v + (c.toNat - 48), n + 1, [])
    else (v, n, [c])
  | v, n, c :: d :: cs =>
    if isDigitCh c then digRun (10 * v + (c.toNat - 48)) (n + 1) (d :: cs)
    else if c == '_' && n != 0 && isDigitCh d then
      digRun (10 * v + (d.toNat - 48)) (n + 2) cs
    else (v, n, c :: d :: cs)

def lowerCh (c : Char) : Char :=
  if 'A' ≤ c && c ≤ 'Z' then Char.ofNat (c.toNat + 32) else c

/-- Exponent suffix of a float literal: empty, or `e`/`E`, optional sign,
at least one digit, consuming the whole rest. -/
def expPart : List Char → Option Int
  | [] => some 0
  | c :: cs =>
    if lowerCh c == 'e' then
      let (eneg, cs1) :=
        match cs with
        | '+' :: rest => (false, rest)
        | '-' :: rest => (true, rest)
        | _ => (false, cs)
      let (ev, ne, cs2) := digRun 0 0 cs1
      if ne ≥ 1 && cs2.isEmpty then some (if eneg then -(ev : Int) else (ev : Int))
      else none
    else none

/-- Mantissa-and-exponent assembly for `pyFloatOfString`: the literal's
exact value `± (iv.fv) * 10^e` as a rational, built with `Rat.divInt` on
integers (so that it evaluates by kernel reduction). -/
def mantissaVal (neg : Bool) (iv ni fv nf : Nat) (rest : List Char) : Option PyFloat :=
  if ni + nf ≥ 1 then
    match expPart rest with
    | some e =>
      let sgn : Int := if neg then -1 else 1
      let n : Int := sgn * (iv * 10 ^ nf + fv : Nat) * (10 ^ e.toNat : Nat)
      let d : Int := ((10 ^ nf : Nat) : Int) * ((10 ^ (-e).toNat : Nat) : Int)
      some (.fin (Rat.divInt n d))
    | none => none
  else none

/-- Python `float(s)` on a string, modelled exactly over rationals:
optional surrounding whitespace, optional sign, then `inf`/`infinity`/
`nan` (case-insensitive) or a decimal literal with optional fraction and
exponent and Python's underscore rule. -/
def pyFloatOfString (s : String) : Option PyFloat :=
  let cs := ((s.toList.dropWhile isPyWs).reverse.dropWhile isPyWs).reverse
  let (neg, cs1) :=
    match cs with
    | '+' :: rest => (false, rest)
    | '-' :: rest => (true, rest)
    | _ => (false, cs)
  let low := cs1.map lowerCh
  if low == ['i', 'n', 'f'] || low == ['i', 'n', 'f', 'i', 'n', 'i', 't', 'y'] then
    some (.inf neg)
  else if low == ['n', 'a', 'n'] then some .nan
  else if cs1.isEmpty then none
  else
    let (iv, ni, cs2) := digRun 0 0 cs1
    match cs2 with
    | '.' :: rest =>
      let (fv, nf, cs3) := digRun 0 0 rest
      mantissaVal neg iv ni fv nf cs3
    | _ => mantissaVal neg iv ni 0 0 cs2

/-- `parse_amount` from src/modules/calc_logic.py:
`pd.isna(val) or str(val).strip() == ''` yields `0.0`; otherwise the input
is stringified, `¥` and `,` are removed, the result stripped and given to
`float`; any failure yields `0.0` through the bare `except`. -/
def parse_amount : PyVal → PyFloat
  | .nanVal => .fin 0
  | .noneVal => .fin 0
  | .num q => .fin q
  | .str s =>
    if pyStrip s == "" then .fin 0
    else
      match pyFloatOfString (pyStrip (cleanChars s)) with
      | some f => f
      | none => .fin 0

/-- `pd.isna(val)` on the modelled inputs: true for NaN and None. -/
def isMissing : PyVal → Bool
  | .nanVal => true
  | .noneVal => true
  | _ => false

/-- `str(val).strip() == ''`. -/
def blankStr : PyVal → Bool
  | .str s => pyStrip s == ""
  | _ => false

/-- The value `float` produces on the cleaned string, when `parse_amount`
reaches the parsing step (missing and blank inputs never reach it). -/
def parsedValue : PyVal → Option PyFloat
  | .nanVal => none
  | .noneVal => none
  | .num q => some (.fin q)
  | .str s =>
    if pyStrip s == "" then none
    else pyFloatOfString (pyStrip (cleanChars s))

/-- Claim C9 as stated, at one input: `parse_amount` returns 0.0 exactly
when the input is NaN, blank, or unparseable, and otherwise returns the
parsed value of the cleaned string. -/
def C9Stated (v : PyVal) : Prop :=
  (parse_amount v = .fin 0 ↔
    (isMissing v = true ∨ blankStr v = true ∨ parsedValue v = none)) ∧
  (∀ f, parsedValue v = some f → parse_amount v = f)

/-! ## `renumber_sort_keys` (src/modules/calc_logic.py lines 53-72) -/

/-- One DataFrame row for `renumber_sort_keys`: the numeric `sort_key`
column and the remaining columns abstracted as a payload. -/
structure DRow (α : Type) where
  sortKey : ℚ
  payload : α
deriving DecidableEq, Repr

/-- `df.sort_values(by=['sort_key'])` followed by
`df['sort_key'] = (df.index + 1) * 100` after `reset_index(drop=True)`.
The pandas sort is modelled by a stable insertion sort on the `sort_key`
column (the properties proved below do not depend on how ties are
broken). -/
def renumAux {α : Type} : Nat → List (DRow α) → List (DRow α)
  | _, [] => []
  | n, r :: rs => { r with sortKey := ((n : ℚ) + 1) * 100 } :: renumAux (n + 1) rs

def sortByKey {α : Type} (rows : List (DRow α)) : List (DRow α) :=
  List.insertionSort (fun a b => a.sortKey ≤ b.sortKey) rows

def renumber_sort_keys {α : Type} (rows : List (DRow α)) : List (DRow α) :=
  renumAux 0 (sortByKey rows)

/-! ## Data model for the detail pages

`EstimatePDFGenerator.draw_detail_pages` (src/app.py lines 427-574).
Only the columns that influence placements and subtotals are modelled:
the four classification keys, the name (whose truthiness gates inclusion)
and the parsed amount `amt_val` (an integer in this pipeline, since
`見積金額` is produced by `calculate_dataframe` with `.astype(int)`).
The remaining columns (`規格`, `数量`, ...) only affect drawn text. -/

structure RawItem where
  l1 : String
  l2 : String
  l3 : String
  l4 : String
  name : String
  amt : Int
deriving DecidableEq, Repr

/-- One render instruction of the block sequencer: the entries of the
source's `rows_to_draw` list (`type` plus `label`/`amt`/`data` fields).
Labels hold the bare group key; the source decorates them (`■ `, `● `,
`【...】`) only in the drawn text. -/
inductive Row where
  | headerL2 (label : String)
  | headerL3 (label : String)
  | headerL4 (label : String)
  | item (it : RawItem)
  | footerL4 (label : String) (amt : Int)
  | footerL3 (label : String) (amt : Int)
  | footerL2 (label : String) (amt : Int)
  | footerL1 (label : String) (amt : Int)
  | empty
deriving DecidableEq, Repr

/-! ### Block sequencer (src/app.py lines 481-507) -/

/-- Control-break state of the per-item loop: `curr_l3`, `curr_l4`,
`sub_l3`, `sub_l4`. -/
structure SeqSt where
  curr3 : String
  curr4 : String
  sub3 : Int
  sub4 : Int
deriving DecidableEq, Repr

def initSeqSt : SeqSt := ⟨"", "", 0, 0⟩

/-- One iteration of the app.py item loop (lines 483-497):
`l3_chg = (l3 and l3 != curr_l3)`, `l4_chg = (l4 and l4 != curr_l4)`;
flush an L4 footer (plus optional spacer) when an L4 run is open and L4 or
L3 changed; flush an L3 footer (plus spacer) when an L3 run is open and L3
changed; open new headers; accumulate both subtotals; emit the item. -/
def appStep (st : SeqSt) (it : RawItem) : SeqSt × List Row :=
  let l3chg : Bool := it.l3 != "" && it.l3 != st.curr3
  let l4chg : Bool := it.l4 != "" && it.l4 != st.curr4
  let p1 : SeqSt × List Row :=
    if st.curr4 != "" && (l4chg || l3chg) then
      ({ st with curr4 := "", sub4 := 0 },
        Row.footerL4 st.curr4 st.sub4 ::
          (if it.l4 != "" || l3chg then [Row.empty] else []))
    else (st, [])
  let st1 := p1.1
  let p2 : SeqSt × List Row :=
    if st1.curr3 != "" && l3chg then
      ({ st1 with curr3 := "", sub3 := 0 },
        Row.footerL3 st1.curr3 st1.sub3 :: (if it.l3 != "" then [Row.empty] else []))
    else (st1, [])
  let st2 := p2.1
  let p3 : SeqSt × List Row :=
    if l3chg then ({ st2 with curr3 := it.l3 }, [Row.headerL3 it.l3]) else (st2, [])
  let st3 := p3.1
  let p4 : SeqSt × List Row :=
    if l4chg then ({ st3 with curr4 := it.l4 }, [Row.headerL4 it.l4]) else (st3, [])
  let st4 := p4.1
  ({ st4 with sub3 := st4.sub3 + it.amt, sub4 := st4.sub4 + it.amt },
    p1.2 ++ p2.2 ++ p3.2 ++ p4.2 ++ [Row.item it])

def appLoop (st : SeqSt) : List RawItem → SeqSt × List Row
  | [] => (st, [])
  | it :: its =>
    let p := appStep st it
    let q := appLoop p.1 its
    (q.1, p.2 ++ q.2)

/-- The after-loop flush (lines 498-499): a still-open L4 footer, then a
still-open L3 footer. -/
def appFlush (st : SeqSt) : List Row :=
  (if st.curr4 != "" then [Row.footerL4 st.curr4 st.sub4] else []) ++
  (if st.curr3 != "" then [Row.footerL3 st.curr3 st.sub3] else [])

/-- The `item_rows` list built for one L2 group. -/
def itemRows (items : List RawItem) : List Row :=
  let p := appLoop initSeqSt items
  p.2 ++ appFlush p.1

def isEmptyRow : Row → Bool
  | .empty => true
  | _ => false

/-- `while rows_to_draw and rows_to_draw[-1]['type'] == 'empty':
rows_to_draw.pop()` (line 507). -/
def trimTrailing (l : List Row) : List Row :=
  (l.reverse.dropWhile isEmptyRow).reverse

/-- `rows_to_draw` for one L2 group (lines 479-507): L2 header, the item
rows, the L2 footer, then either the L1 footer (last L2 group of its L1)
or two spacers, with trailing spacers trimmed. -/
def rowsToDraw (l1 l2 : String) (items : List RawItem) (l2tot l1tot : Int)
    (isLast : Bool) : List Row :=
  trimTrailing
    (Row.headerL2 l2 :: itemRows items ++
      [Row.footerL2 l2 l2tot] ++
      (if isLast then [Row.footerL1 l1 l1tot] else [Row.empty, Row.empty]))

/-! ### Data preparation (src/app.py lines 429-448) -/

def keyL1 (r : RawItem) : String := pyStrip r.l1
def keyL2 (r : RawItem) : String := pyStrip r.l2

/-- Distinct values in first-seen order (the insertion behaviour of
`seen_l1` / `seen_l2_by_l1`). -/
def firstSeen (xs : List String) : List String :=
  xs.foldl (fun acc x => if x ∈ acc then acc else acc ++ [x]) []

/-- `seen_l1`: the distinct non-empty stripped L1 keys in first-seen
order (rows with empty L1 are skipped by `continue`). -/
def seenL1 (rows : List RawItem) : List String :=
  firstSeen ((rows.filter (fun r => keyL1 r != "")).map keyL1)

/-- `seen_l2_by_l1[l1]`: distinct non-empty stripped L2 keys of rows with
this L1, in first-seen order.  (Rows with an empty L2 land in
`data_tree[l1][""]` but are never iterated, because only `seen_l2` keys
are rendered.) -/
def seenL2 (rows : List RawItem) (l1 : String) : List String :=
  firstSeen ((rows.filter (fun r => keyL1 r == l1 && keyL2 r != "")).map keyL2)

/-- The per-item normalisation: `item['l3'] = str(...).strip()` etc. -/
def normItem (r : RawItem) : RawItem :=
  { r with l1 := pyStrip r.l1, l2 := pyStrip r.l2,
           l3 := pyStrip r.l3, l4 := pyStrip r.l4 }

/-- `data_tree[l1][l2]`: the rows with these stripped keys and a truthy
`名称`, in input order. -/
def itemsFor (rows : List RawItem) (l1 l2 : String) : List RawItem :=
  (rows.filter (fun r => keyL1 r == l1 && keyL2 r == l2 && r.name != "")).map normItem

def amtSum (items : List RawItem) : Int := (items.map RawItem.amt).sum

/-- `l2_total = sum(i['amt_val'] for i in items)`. -/
def l2TotalFor (rows : List RawItem) (l1 l2 : String) : Int :=
  amtSum (itemsFor rows l1 l2)

/-- `l1_total`: the sum over every bucket of `data_tree[l1]`, including
the never-rendered empty-L2 bucket. -/
def l1TotalFor (rows : List RawItem) (l1 : String) : Int :=
  ((rows.filter (fun r => keyL1 r == l1 && r.name != "")).map RawItem.amt).sum

/-! ### Page geometry

Lengths are exact integers in units of 1/1270 of a point, so that
1 mm = 72/25.4 pt = 3600 units and the source's literal `0.1` (points)
is 127 units.  All constants of the source are exact in these units, and
every comparison the source makes is far from the float-rounding scale,
so branch outcomes agree with the float program. -/

structure Geom where
  yStart : Int
  marginB : Int
  rowH : Int
deriving DecidableEq, Repr

def mmU : Int := 3600
def fudgeU : Int := 127

/-- app.py geometry: `y_start = height - MARGIN_TOP = (210-35) mm`,
`MARGIN_BOTTOM = 21 mm`, `ROW_HEIGHT = 7 mm` (landscape A4). -/
def appGeom : Geom := { yStart := 175 * mmU, marginB := 21 * mmU, rowH := 7 * mmU }

/-- The spec's derived rows-per-page for a geometry (the source never
computes it): usable height between content top and bottom margin divided
by the row height, rounded down. -/
def specRowsPerPage (g : Geom) : Int :=
  Int.fdiv (g.yStart - g.marginB) g.rowH

/-! ### Page layout loop (src/app.py lines 450-574) -/

/-- One recorded draw: the per-block draw, the continuation headers
redrawn after a page break, or the L1 header drawn by the outer loop. -/
inductive Draw where
  | block (page : Nat) (y : Int) (r : Row)
  | contL1 (page : Nat) (y : Int) (label : String)
  | contL2 (page : Nat) (y : Int) (label : String)
  | contL3 (page : Nat) (y : Int) (label : String)
  | contL4 (page : Nat) (y : Int) (label : String)
  | headL1 (page : Nat) (y : Int) (label : String)
deriving DecidableEq, Repr

/-- Block-loop state: cursor `y`, page number, `l2_started`,
`cur_l3_lbl`, `cur_l4_lbl`. -/
structure BSt where
  y : Int
  page : Nat
  l2started : Bool
  cur3 : Option String
  cur4 : Option String
deriving DecidableEq, Repr

/-- Closed form of the bottom-stickiness loop
`if y > target + 0.1: while y > target + 0.1: y -= ROW_HEIGHT`
(lines 529-533): the cursor drops by the least number of rows landing at
or below `target + 0.1`.  The source loop terminates only for a positive
row height; every geometry considered here has `0 < rowH`. -/
def stick (rowH target y : Int) : Int :=
  if y ≤ target + fudgeU then y
  else if rowH ≤ 0 then y
  else y - rowH * (-(Int.ediv (-(y - target - fudgeU)) rowH))

def isFooterL1row : Row → Bool
  | .footerL1 _ _ => true
  | _ => false

def isFooterL2row : Row → Bool
  | .footerL2 _ _ => true
  | _ => false

/-- The continuation headers redrawn at the top of a fresh page after a
mid-group page break (lines 514-528): the L1 "(続き)" header always; the
L2 one if an L2 header was already drawn and the pending block is not the
L1 footer; then the open L3 and L4 labels.  Returns the draws and the
cursor after them. -/
def breakDraws (g : Geom) (l1 l2 : String) (st : BSt) (b : Row) : List Draw × Int :=
  let p := st.page + 1
  let y0 := g.yStart
  let d1 : List Draw := [Draw.contL1 p y0 l1]
  let y1 := y0 - g.rowH
  let d2 : List Draw :=
    if st.l2started && !isFooterL1row b then [Draw.contL2 p y1 l2] else []
  let y2 := if st.l2started && !isFooterL1row b then y1 - g.rowH else y1
  let d3 : List Draw :=
    match st.cur3 with
    | some lbl => [Draw.contL3 p y2 lbl]
    | none => []
  let y3 := match st.cur3 with
    | some _ => y2 - g.rowH
    | none => y2
  let d4 : List Draw :=
    match st.cur4 with
    | some lbl => [Draw.contL4 p y3 lbl]
    | none => []
  let y4 := match st.cur4 with
    | some _ => y3 - g.rowH
    | none => y3
  (d1 ++ d2 ++ d3 ++ d4, y4)

/-- One iteration of `for b in rows_to_draw` (lines 510-573):
force-stay for the L1 footer, the page break with continuation headers,
bottom-stickiness for L1/L2 footers, the draw itself, and the open-label
bookkeeping. -/
def blockStep (g : Geom) (l1 l2 : String) (isLast : Bool) (st : BSt) (b : Row) :
    BSt × List Draw :=
  let forceStay := isFooterL1row b
  let br : BSt × List Draw :=
    if st.y - g.rowH < g.marginB - fudgeU && !forceStay then
      ({ st with page := st.page + 1, y := (breakDraws g l1 l2 st b).2 },
        (breakDraws g l1 l2 st b).1)
    else (st, [])
  let st1 := br.1
  let yD :=
    if isFooterL2row b || isFooterL1row b then
      stick g.rowH (g.marginB + (if isFooterL2row b && isLast then 1 else 0) * g.rowH) st1.y
    else st1.y
  let st2 : BSt :=
    match b with
    | .headerL2 _ => { st1 with l2started := true }
    | .headerL3 lbl => { st1 with cur3 := some lbl }
    | .headerL4 lbl => { st1 with cur4 := some lbl }
    | .footerL4 _ _ => { st1 with cur4 := none }
    | .footerL3 _ _ => { st1 with cur3 := none }
    | _ => st1
  ({ st2 with y := yD - g.rowH }, br.2 ++ [Draw.block st1.page yD b])

def layoutBlocks (g : Geom) (l1 l2 : String) (isLast : Bool) :
    BSt → List Row → BSt × List Draw
  | st, [] => (st, [])
  | st, b :: bs =>
    let p := blockStep g l1 l2 isLast st b
    let q := layoutBlocks g l1 l2 isLast p.1 bs
    (q.1, p.2 ++ q.2)

/-- Cursor/page state carried between groups. -/
structure OSt where
  y : Int
  page : Nat
deriving DecidableEq, Repr

/-- The `for i_l2, l2 in enumerate(sorted_l2)` loop: per group the
block-loop state (`l2_started`, open labels) is reinitialised, only the
cursor and page number carry over. -/
def layoutL2s (g : Geom) (rows : List RawItem) (l1 : String) (l1tot : Int) :
    OSt → List String → OSt × List Draw
  | st, [] => (st, [])
  | st, l2 :: rest =>
    let isLast := rest.isEmpty
    let blocks := rowsToDraw l1 l2 (itemsFor rows l1 l2) (l2TotalFor rows l1 l2) l1tot isLast
    let p := layoutBlocks g l1 l2 isLast
      { y := st.y, page := st.page, l2started := false, cur3 := none, cur4 := none } blocks
    let q := layoutL2s g rows l1 l1tot { y := p.1.y, page := p.1.page } rest
    (q.1, p.2 ++ q.2)

/-- The outer `for l1 in seen_l1` loop (lines 455-474): spacer or page
break between L1 groups, a second page-break guard, the L1 header, then
the L2 groups. -/
def layoutL1s (g : Geom) (rows : List RawItem) :
    OSt → Bool → List String → OSt × List Draw
  | st, _, [] => (st, [])
  | st, isFirst, l1 :: rest =>
    let st1 : OSt :=
      if !isFirst then
        if st.y ≤ g.marginB + 2 * g.rowH then { y := g.yStart, page := st.page + 1 }
        else { st with y := st.y - g.rowH }
      else st
    let st2 : OSt :=
      if st1.y ≤ g.marginB + g.rowH then { y := g.yStart, page := st1.page + 1 }
      else st1
    let hd : Draw := Draw.headL1 st2.page st2.y l1
    let st3 : OSt := { st2 with y := st2.y - g.rowH }
    let p := layoutL2s g rows l1 (l1TotalFor rows l1) st3 (seenL2 rows l1)
    let q := layoutL1s g rows p.1 false rest
    (q.1, hd :: (p.2 ++ q.2))

/-- `draw_detail_pages`: full detail-page generation from the raw rows.
The start page number is the value `generate` happens to pass in. -/
def detailRun (g : Geom) (startPage : Nat) (rows : List RawItem) : OSt × List Draw :=
  layoutL1s g rows { y := g.yStart, page := startPage } true (seenL1 rows)

/-! ### pdf_exporter.py control-break step (lines 477-555)

The second sequencer variant, `draw_detail_table`, draws rows directly.
Its per-item control-break logic is modelled here with the same `Row`
output (drawing positions aside): note `is_l3_change = (l3 != current_l3)`
— any change, including to the empty string — where app.py requires the
new key to be non-empty.  Subtotals are accumulated after the item is
drawn (lines 554-555), which has the same effect on the states observed
by later footers as accumulating just before. -/
def expStep (st : SeqSt) (it : RawItem) : SeqSt × List Row :=
  let l3chg : Bool := it.l3 != st.curr3
  let l4chg : Bool := it.l4 != st.curr4
  let p1 : SeqSt × List Row :=
    if st.curr4 != "" && (l4chg || l3chg) then
      ({ st with curr4 := "", sub4 := 0 }, [Row.footerL4 st.curr4 st.sub4])
    else (st, [])
  let st1 := p1.1
  let p2 : SeqSt × List Row :=
    if st1.curr3 != "" && l3chg then
      ({ st1 with curr3 := "", sub3 := 0 }, [Row.footerL3 st1.curr3 st1.sub3])
    else (st1, [])
  let st2 := p2.1
  let p3 : SeqSt × List Row :=
    if l3chg && it.l3 != "" then ({ st2 with curr3 := it.l3 }, [Row.headerL3 it.l3])
    else (st2, [])
  let st3 := p3.1
  let p4 : SeqSt × List Row :=
    if l4chg && it.l4 != "" then ({ st3 with curr4 := it.l4 }, [Row.headerL4 it.l4])
    else (st3, [])
  let st4 := p4.1
  ({ st4 with sub3 := st4.sub3 + it.amt, sub4 := st4.sub4 + it.amt },
    p1.2 ++ p2.2 ++ p3.2 ++ p4.2 ++ [Row.item it])

/-! ### Trailing totals block (src/pdf_exporter.py lines 59-87, 106-118,
192-226) -/

/-- The four totals computed in `__init__`: `overhead_amount =
int(total_kouji * 0.15)`, `total_estimated`, `tax_amount =
int(total_estimated * 0.1)`, `final_total`.  Python `int()` truncates
toward zero (`Int.tdiv`). -/
structure Totals where
  overhead : Int
  estimated : Int
  tax : Int
  final : Int
deriving DecidableEq, Repr

def mkTotals (kouji : Int) : Totals :=
  let ov := Int.tdiv (kouji * 15) 100
  let est := kouji + ov
  let tax := Int.tdiv est 10
  { overhead := ov, estimated := est, tax := tax, final := est + tax }

/-- The four drawn totals rows, in order. -/
inductive TRow where
  | overheadRow (amt : Int)
  | estTotalRow (amt : Int)
  | taxRow (amt : Int)
  | grandTotalRow (amt : Int)
deriving DecidableEq, Repr

/-- `_check_space(rows_needed)`: break the page when `rows_needed` rows do
not fit above the bottom margin (no fudge term in this variant). -/
def checkSpace (g : Geom) (rowsNeeded : Int) (st : OSt) : OSt × Bool :=
  if st.y - rowsNeeded * g.rowH < g.marginB then
    ({ y := g.yStart, page := st.page + 1 }, true)
  else (st, false)

/-- pdf_exporter geometry: `MARGIN_BOTTOM = 25 mm` (this file's value),
otherwise as app.py. -/
def expGeom : Geom := { yStart := 175 * mmU, marginB := 25 * mmU, rowH := 7 * mmU }

/-- `_draw_total_block`: `_check_space(5, ...)`, then four rows (overhead,
subtotal ex tax, tax, grand total) drawn at consecutive cursor
positions. -/
def drawTotalBlock (g : Geom) (tb : Totals) (st : OSt) :
    OSt × List (Nat × Int × TRow) :=
  let st1 := (checkSpace g 5 st).1
  let ds := [(st1.page, st1.y, TRow.overheadRow tb.overhead),
             (st1.page, st1.y - g.rowH, TRow.estTotalRow tb.estimated),
             (st1.page, st1.y - 2 * g.rowH, TRow.taxRow tb.tax),
             (st1.page, st1.y - 3 * g.rowH, TRow.grandTotalRow tb.final)]
  ({ st1 with y := st1.y - 4 * g.rowH }, ds)

/-! ## Derived observations used by the claims -/

/-- Subtotal checker for C1: replay the rows, adding every item amount to
both running sums, checking each L3/L4 footer against the matching sum and
resetting it there.  `none` signals a footer whose amount is not the sum
of the item amounts accumulated since the previous footer of its level. -/
def chkRun : Int → Int → List Row → Option (Int × Int)
  | s3, s4, [] => some (s3, s4)
  | s3, s4, r :: rs =>
    match r with
    | .item it => chkRun (s3 + it.amt) (s4 + it.amt) rs
    | .footerL3 _ a => if a = s3 then chkRun 0 s4 rs else none
    | .footerL4 _ a => if a = s4 then chkRun s3 0 rs else none
    | _ => chkRun s3 s4 rs

/-- The per-block draws of a draw stream, in order (continuation redraws
and the outer-loop L1 headers stripped). -/
def origRows : List Draw → List Row
  | [] => []
  | .block _ _ r :: ds => r :: origRows ds
  | .contL1 _ _ _ :: ds => origRows ds
  | .contL2 _ _ _ :: ds => origRows ds
  | .contL3 _ _ _ :: ds => origRows ds
  | .contL4 _ _ _ :: ds => origRows ds
  | .headL1 _ _ _ :: ds => origRows ds

/-- The amount carried by an `Item` row (0 for anything else). -/
def rowAmt : Row → Int
  | .item it => it.amt
  | _ => 0

def rowsItemSum (l : List Row) : Int := (l.map rowAmt).sum

def drawItemSum (ds : List Draw) : Int := rowsItemSum (origRows ds)

/-- The block streams of the successive L2 groups of one L1 group,
concatenated (`rest.isEmpty` is the `is_last_l2` flag). -/
def blocksForL2s (rows : List RawItem) (l1 : String) (l1tot : Int) :
    List String → List Row
  | [] => []
  | l2 :: rest =>
    rowsToDraw l1 l2 (itemsFor rows l1 l2) (l2TotalFor rows l1 l2) l1tot rest.isEmpty ++
      blocksForL2s rows l1 l1tot rest

/-- All blocks fed to the layout loop over the given L1 groups. -/
def detailBlocks (rows : List RawItem) : List String → List Row
  | [] => []
  | l1 :: rest =>
    blocksForL2s rows l1 (l1TotalFor rows l1) (seenL2 rows l1) ++ detailBlocks rows rest

/-- The rows the detail-page data preparation retains: non-empty stripped
L1 and L2 and a truthy name. -/
def retained (r : RawItem) : Bool :=
  keyL1 r != "" && keyL2 r != "" && r.name != ""

/-- App.py's notion of a key change (lines 485): non-empty and different
from the open run. -/
def appChg (key curr : String) : Bool := key != "" && key != curr

/-- pdf_exporter.py's notion of a key change (lines 482-483): any
difference, including a change to the empty string. -/
def expChg (key curr : String) : Bool := key != curr

/-- A geometry whose derived rows-per-page is negative: the content top
sits below the bottom margin. -/
def degenerateGeom : Geom := { yStart := 0, marginB := 21 * mmU, rowH := 7 * mmU }

/-- The two-item scenario of C5. -/
def c5Rows : List RawItem :=
  [⟨"A", "X", "", "", "item1", 100⟩, ⟨"A", "X", "", "", "item2", 200⟩]

/-- C1 counterexample input: an item with empty L4 preceding the L4 run
`"B"`. -/
def c1Rows : List RawItem :=
  [⟨"A", "X", "", "", "n1", 5⟩, ⟨"A", "X", "", "B", "n2", 7⟩]

/-! ## Theorems -/

/-! ### Theorems for C9 -/

/-- C9 (counterexample): the claim says `parse_amount` "returns 0.0
exactly when the input is NaN, empty, or not parseable"; the input `"0"`
is parseable and not missing or blank, yet the result is 0.0, so the
"exactly when" biconditional fails. -/
theorem C9_parse_amount_counterexample : ¬ C9Stated (.str "0") := by
  intro h
  have h0 : parse_amount (.str "0") = .fin 0 := by decide
  rcases h.1.mp h0 with h1 | h1 | h1
  · exact absurd h1 (by decide)
  · exact absurd h1 (by decide)
  · exact absurd h1 (by decide)

/-- C9 (amended): `parse_amount` is total and returns 0.0 whenever the
input is missing (NaN/None), blank after stripping, or not parseable as a
float after removing yen signs and commas; otherwise it returns the value
`float` produces on the cleaned string (which can itself be 0.0, e.g. for
the input `"0"`). -/
theorem C9_parse_amount_amended (v : PyVal) :
    ((isMissing v = true ∨ blankStr v = true ∨ parsedValue v = none) →
      parse_amount v = .fin 0) ∧
    (∀ f, parsedValue v = some f → parse_amount v = f) := by
  constructor
  · intro h
    cases v with
    | str s =>
      rcases h with h | h | h
      · simp [isMissing] at h
      · simp only [blankStr] at h
        simp [parse_amount, h]
      · by_cases hb : pyStrip s == ""
        · simp [parse_amount, hb]
        · simp only [parsedValue, hb, if_false, Bool.false_eq_true] at h
          simp [parse_amount, hb, h]
    | num q => rcases h with h | h | h <;> simp_all [isMissing, blankStr, parsedValue]
    | nanVal => rfl
    | noneVal => rfl
  · intro f hf
    cases v with
    | str s =>
      by_cases hb : pyStrip s == ""
      · simp [parsedValue, hb] at hf
      · simp only [parsedValue, hb, if_false, Bool.false_eq_true] at hf
        simp [parse_amount, hb, hf]
    | num q =>
      simp only [parsedValue, Option.some.injEq] at hf
      simp [parse_amount, ← hf]
    | nanVal => simp [parsedValue] at hf
    | noneVal => simp [parsedValue] at hf

/-- C9 (witness): the amended theorem applied to `"¥1,234.50"`. -/
theorem C9_parse_amount_witness :
    parse_amount (.str "¥1,234.50") = .fin (Rat.divInt 2469 2) :=
  (C9_parse_amount_amended (.str "¥1,234.50")).2 (.fin (Rat.divInt 2469 2)) (by decide)

/-! ### Theorems for C10 -/

theorem renumAux_map_payload {α : Type} (l : List (DRow α)) :
    ∀ n, (renumAux n l).map DRow.payload = l.map DRow.payload := by
  induction l with
  | nil => intro n; rfl
  | cons r rs ih => intro n; simp [renumAux, ih (n + 1)]

theorem renumAux_map_key {α : Type} (l : List (DRow α)) :
    ∀ n, (renumAux n l).map DRow.sortKey =
      (List.range l.length).map (fun i => (((n + i : Nat) : ℚ) + 1) * 100) := by
  induction l with
  | nil => intro n; rfl
  | cons r rs ih =>
    intro n
    have hmap : (List.range rs.length).map (fun i : ℕ => (((n + 1 + i : Nat) : ℚ) + 1) * 100)
        = (List.range rs.length).map
            ((fun i : ℕ => (((n + i : Nat) : ℚ) + 1) * 100) ∘ Nat.succ) := by
      apply List.map_congr_left
      intro i _
      have hn : n + 1 + i = n + (i + 1) := by omega
      simp [Function.comp, hn]
    simp only [renumAux, List.map_cons, List.length_cons, List.range_succ_eq_map,
      List.map_map, ih (n + 1), hmap, Nat.add_zero]

theorem sortByKey_perm {α : Type} (rows : List (DRow α)) :
    (sortByKey rows).Perm rows :=
  List.perm_insertionSort _ rows

theorem sortByKey_sorted {α : Type} (rows : List (DRow α)) :
    List.Sorted (fun a b => a.sortKey ≤ b.sortKey) (sortByKey rows) := by
  haveI : IsTotal (DRow α) (fun a b => a.sortKey ≤ b.sortKey) :=
    ⟨fun a b => le_total a.sortKey b.sortKey⟩
  haveI : IsTrans (DRow α) (fun a b => a.sortKey ≤ b.sortKey) :=
    ⟨fun _ _ _ hab hbc => le_trans hab hbc⟩
  exact List.sorted_insertionSort _ rows

/-- C10: `renumber_sort_keys` keeps exactly the original rows (their
payloads form a permutation of the input payloads, in the order given by
the stable ascending sort on the original `sort_key`), and assigns the new
keys 100, 200, ..., 100·n in row order, which are strictly increasing. -/
theorem C10_renumber_sort_keys {α : Type} (rows : List (DRow α)) :
    (renumber_sort_keys rows).length = rows.length ∧
    (renumber_sort_keys rows).map DRow.payload = (sortByKey rows).map DRow.payload ∧
    ((renumber_sort_keys rows).map DRow.payload).Perm (rows.map DRow.payload) ∧
    (renumber_sort_keys rows).map DRow.sortKey =
      (List.range rows.length).map (fun i : ℕ => ((i : ℚ) + 1) * 100) ∧
    ((renumber_sort_keys rows).map DRow.sortKey).Sorted (· < ·) ∧
    List.Sorted (fun a b => a.sortKey ≤ b.sortKey) (sortByKey rows) ∧
    (sortByKey rows).Perm rows := by
  have hlen : (sortByKey rows).length = rows.length := (sortByKey_perm rows).length_eq
  have hpay : (renumber_sort_keys rows).map DRow.payload =
      (sortByKey rows).map DRow.payload := renumAux_map_payload _ 0
  have hkey : (renumber_sort_keys rows).map DRow.sortKey =
      (List.range rows.length).map (fun i : ℕ => ((i : ℚ) + 1) * 100) := by
    rw [renumber_sort_keys, renumAux_map_key _ 0, hlen]
    apply List.map_congr_left
    intro i _
    norm_num
  refine ⟨?_, hpay, ?_, hkey, ?_, sortByKey_sorted rows, sortByKey_perm rows⟩
  · have := congrArg List.length hpay
    simpa [hlen] using this
  · rw [hpay]; exact (sortByKey_perm rows).map DRow.payload
  · rw [hkey]
    apply List.Pairwise.map (fun i : ℕ => ((i : ℚ) + 1) * 100)
      (fun i j hij => by
        show ((i : ℚ) + 1) * 100 < ((j : ℚ) + 1) * 100
        have hq : (i : ℚ) < (j : ℚ) := by exact_mod_cast hij
        linarith)
    exact List.pairwise_lt_range _

/-! ### Theorems for C5 -/

/-- C5: for two items with L1 "A", L2 "X", amounts 100 and 200 and no
L3/L4 keys, the sequencer emits exactly `GroupHeader(L2,"X")`,
`Item(100)`, `Item(200)`, `GroupFooter(L2,"X",300)`,
`GroupFooter(L1,"A",300)`, with the L1 footer in the same block list as
the last L2 footer. -/
theorem C5_two_item_scenario :
    seenL1 c5Rows = ["A"] ∧ seenL2 c5Rows "A" = ["X"] ∧
    rowsToDraw "A" "X" (itemsFor c5Rows "A" "X") (l2TotalFor c5Rows "A" "X")
        (l1TotalFor c5Rows "A") true =
      [Row.headerL2 "X",
       Row.item ⟨"A", "X", "", "", "item1", 100⟩,
       Row.item ⟨"A", "X", "", "", "item2", 200⟩,
       Row.footerL2 "X" 300,
       Row.footerL1 "A" 300] := by decide

/-! ### Theorems for C2 -/

/-- C2: an L1-total footer is never deferred to a new page: the page-break
branch of the block loop is skipped (`force_stay`), the page number is
unchanged, no continuation headers are emitted, and the footer is drawn on
the current page at the cursor (after the bottom-stickiness advance that
applies to it), even when the cursor is already past the bottom margin. -/
theorem C2_force_stay_L1_footer (g : Geom) (l1 l2 : String) (isLast : Bool)
    (st : BSt) (lbl : String) (a : Int) :
    (blockStep g l1 l2 isLast st (Row.footerL1 lbl a)).2 =
      [Draw.block st.page (stick g.rowH g.marginB st.y) (Row.footerL1 lbl a)] ∧
    (blockStep g l1 l2 isLast st (Row.footerL1 lbl a)).1.page = st.page := by
  constructor <;> simp [blockStep, isFooterL1row, isFooterL2row]

/-! ### Theorems for C8 -/

/-- C8: generation is a deterministic function of the item list and
geometry; two runs on identical input produce identical draw streams (the
engine holds no state between invocations: each run starts from the same
freshly-computed initial state). -/
theorem C8_determinism (g : Geom) (p : Nat) (rows1 rows2 : List RawItem)
    (h : rows1 = rows2) : detailRun g p rows1 = detailRun g p rows2 := by
  rw [h]

/-- C8 (witness): the determinism theorem applied to a concrete input. -/
theorem C8_determinism_witness :
    detailRun appGeom 5 c5Rows = detailRun appGeom 5 c5Rows :=
  C8_determinism appGeom 5 c5Rows c5Rows rfl

/-! ### Theorems for C7 -/

/-- C7 (counterexample): the trailing totals block of
`_draw_total_block` has four rows — overhead, subtotal ex tax, tax, grand
total — not the three rows (subtotal, tax, grand total) of the claim; and
its page-break check reserves five rows, not the rows of the block. -/
theorem C7_total_block_counterexample :
    (drawTotalBlock expGeom (mkTotals 1000) ⟨expGeom.yStart, 3⟩).2.length = 4 ∧
    TRow.overheadRow (mkTotals 1000).overhead ∈
      (drawTotalBlock expGeom (mkTotals 1000) ⟨expGeom.yStart, 3⟩).2.map
        (fun d => d.2.2) ∧
    (4 : Nat) ≠ 3 := by decide

/-- C7 (amended): after the last L1 group `_draw_total_block` places a
fixed trailing block of exactly 4 rows (overhead, subtotal ex tax, tax,
grand total), all on the page chosen by a single `_check_space` call that
reserves 5 rows: the same page-break rule as other blocks, breaking
exactly when 5 rows do not fit above the bottom margin. -/
theorem C7_total_block_amended (g : Geom) (tb : Totals) (st : OSt) :
    (drawTotalBlock g tb st).2.map (fun d => d.2.2) =
      [TRow.overheadRow tb.overhead, TRow.estTotalRow tb.estimated,
       TRow.taxRow tb.tax, TRow.grandTotalRow tb.final] ∧
    (drawTotalBlock g tb st).2.map (fun d => d.1) =
      List.replicate 4 (checkSpace g 5 st).1.page ∧
    (st.y - 5 * g.rowH < g.marginB →
      (checkSpace g 5 st).1 = ⟨g.yStart, st.page + 1⟩) ∧
    (g.marginB ≤ st.y - 5 * g.rowH → (checkSpace g 5 st).1 = st) := by
  refine ⟨rfl, rfl, ?_, ?_⟩
  · intro h
    simp [checkSpace, h]
  · intro h
    simp [checkSpace, not_lt.mpr h]

/-- C7 (witness): the amended theorem applied at the top of a page, where
no break occurs. -/
theorem C7_total_block_witness :
    (checkSpace expGeom 5 ⟨expGeom.yStart, 3⟩).1 = ⟨expGeom.yStart, 3⟩ :=
  (C7_total_block_amended expGeom (mkTotals 1000) ⟨expGeom.yStart, 3⟩).2.2.2
    (by decide)

/-! ### Counterexamples for C1, C3, C4, C6 -/

/-- C1 (counterexample): with an empty-L4 item (amount 5) preceding the
run of L4 = "B" (amount 7), the emitted `GroupFooter(L4,"B")` carries 12:
the preceding empty-L4 item leaks into the subtotal, though the claim says
it contributes nothing. -/
theorem C1_footer_sum_counterexample :
    Row.footerL4 "B" 12 ∈
      rowsToDraw "A" "X" (itemsFor c1Rows "A" "X") (l2TotalFor c1Rows "A" "X")
        (l1TotalFor c1Rows "A") true ∧
    ((itemsFor c1Rows "A" "X").filter (fun r => r.l4 == "B")).map RawItem.amt = [7] ∧
    (12 : Int) ≠ 7 := by decide

/-- C3 (counterexample): an item with empty L1 is dropped by the data
preparation, so its amount (5) is missing from the drawn total (0): the
claimed equality with the sum over all input items fails. -/
theorem C3_conservation_counterexample :
    drawItemSum (detailRun appGeom 5 [⟨"", "X", "", "", "n", 5⟩]).2 = 0 ∧
    ([(⟨"", "X", "", "", "n", 5⟩ : RawItem)].map RawItem.amt).sum = 5 ∧
    (0 : Int) ≠ 5 := by decide

/-- C4 (counterexample): in app.py's sequencer, an L3 change to the empty
value while an L3 run is open (`curr_l3 = "A"`, item L3 `""`) flushes
nothing: the step emits only the item row, no `GroupFooter(L3)`, because
`l3_chg = (l3 and l3 != curr_l3)` is falsy for an empty new key. -/
theorem C4_flush_counterexample :
    (appStep ⟨"A", "", 1, 1⟩ ⟨"A", "X", "", "", "n2", 2⟩).2 =
      [Row.item ⟨"A", "X", "", "", "n2", 2⟩] ∧
    Row.footerL3 "A" 1 ∉ (appStep ⟨"A", "", 1, 1⟩ ⟨"A", "X", "", "", "n2", 2⟩).2 ∧
    ("A" : String) ≠ "" ∧ ("" : String) ≠ "A" := by decide

/-- C6 (counterexample): for a geometry whose derived rows-per-page is
negative, generation does not fail: no precondition is checked anywhere,
and the layout runs to completion, producing draws. -/
theorem C6_no_precondition_counterexample :
    specRowsPerPage degenerateGeom ≤ 0 ∧
    (detailRun degenerateGeom 1 c1Rows).2 ≠ [] := by decide

/-! ### Theorems for C1 (amended) -/

theorem chkRun_append (l1 l2 : List Row) : ∀ s3 s4 : Int,
    chkRun s3 s4 (l1 ++ l2) =
      (chkRun s3 s4 l1).bind (fun p => chkRun p.1 p.2 l2) := by
  induction l1 with
  | nil => intro s3 s4; simp [chkRun]
  | cons r rs ih =>
    intro s3 s4
    cases r with
    | item it => simpa [chkRun] using ih _ _
    | footerL3 lbl a =>
      simp only [List.cons_append, chkRun]
      split
      · exact ih _ _
      · simp
    | footerL4 lbl a =>
      simp only [List.cons_append, chkRun]
      split
      · exact ih _ _
      · simp
    | headerL2 lbl => simpa [chkRun] using ih _ _
    | headerL3 lbl => simpa [chkRun] using ih _ _
    | headerL4 lbl => simpa [chkRun] using ih _ _
    | footerL2 lbl a => simpa [chkRun] using ih _ _
    | footerL1 lbl a => simpa [chkRun] using ih _ _
    | empty => simpa [chkRun] using ih _ _

/-- The rows emitted for one item check out exactly, and leave the checker
in the state given by the new subtotals: the sequencer's `sub_l3`/`sub_l4`
are precisely the sums the checker recomputes. -/
theorem chkRun_appStep (st : SeqSt) (it : RawItem) :
    chkRun st.sub3 st.sub4 (appStep st it).2 =
      some ((appStep st it).1.sub3, (appStep st it).1.sub4) := by
  obtain ⟨c3, c4, s3, s4⟩ := st
  obtain ⟨b1, b2, b3, b4, nm, amt⟩ := it
  by_cases hc3 : c3 = "" <;> by_cases hc4 : c4 = "" <;>
    by_cases h3 : b3 = c3 <;> by_cases h4 : b4 = c4 <;>
      by_cases he3 : b3 = "" <;> by_cases he4 : b4 = "" <;>
        simp_all [appStep, chkRun]

theorem chkRun_appFlush (st : SeqSt) :
    (chkRun st.sub3 st.sub4 (appFlush st)).isSome = true := by
  obtain ⟨c3, c4, s3, s4⟩ := st
  by_cases hc3 : c3 = "" <;> by_cases hc4 : c4 = "" <;>
    simp_all [appFlush, chkRun]

theorem chkRun_appLoop_flush (items : List RawItem) : ∀ st : SeqSt,
    (chkRun st.sub3 st.sub4
      ((appLoop st items).2 ++ appFlush (appLoop st items).1)).isSome = true := by
  induction items with
  | nil =>
    intro st
    simpa [appLoop] using chkRun_appFlush st
  | cons it its ih =>
    intro st
    simp only [appLoop, List.append_assoc, chkRun_append, chkRun_appStep,
      Option.bind_some]
    simpa [chkRun_append] using ih (appStep st it).1

theorem chkRun_itemRows (items : List RawItem) :
    (chkRun 0 0 (itemRows items)).isSome = true := by
  simpa [itemRows, initSeqSt] using chkRun_appLoop_flush items initSeqSt

theorem chkRun_untrimmed (l1 l2 : String) (items : List RawItem)
    (l2tot l1tot : Int) (isLast : Bool) :
    (chkRun 0 0 (Row.headerL2 l2 :: itemRows items ++ [Row.footerL2 l2 l2tot] ++
      (if isLast then [Row.footerL1 l1 l1tot] else [Row.empty, Row.empty]))).isSome
      = true := by
  have h := chkRun_itemRows items
  rw [show chkRun (0 : Int) (0 : Int)
        (Row.headerL2 l2 :: itemRows items ++ [Row.footerL2 l2 l2tot] ++
          (if isLast then [Row.footerL1 l1 l1tot] else [Row.empty, Row.empty])) =
      chkRun 0 0 (itemRows items ++ ([Row.footerL2 l2 l2tot] ++
          (if isLast then [Row.footerL1 l1 l1tot] else [Row.empty, Row.empty])))
    from by simp [chkRun]]
  rw [chkRun_append]
  obtain ⟨p, hp⟩ := Option.isSome_iff_exists.mp h
  rw [hp]
  cases isLast <;> simp [chkRun]

theorem chkRun_trimTrailing (l : List Row) (s3 s4 : Int)
    (h : (chkRun s3 s4 l).isSome = true) :
    (chkRun s3 s4 (trimTrailing l)).isSome = true := by
  have hsplit : l = trimTrailing l ++ (l.reverse.takeWhile isEmptyRow).reverse := by
    conv_lhs => rw [← List.reverse_reverse l,
      ← List.takeWhile_append_dropWhile (p := isEmptyRow) (l := l.reverse)]
    rw [List.reverse_append]
    rfl
  rw [hsplit, chkRun_append] at h
  cases hh : chkRun s3 s4 (trimTrailing l) with
  | none => rw [hh] at h; simp at h
  | some p => simp [hh]

/-- C1 (amended): in the block stream of one L2 group, every
`GroupFooter(L3)` and `GroupFooter(L4)` carries exactly the sum of the
amounts of the items emitted since that level's subtotal was last reset —
i.e. since the previous same-level footer (or the start of the group).
This is the contiguous run the footer closes, extended by any items whose
key at that level is empty or unchanged (such as an empty-L4 run preceding
the first L4 header): the replaying checker `chkRun` accepts the whole
stream. -/
theorem C1_footer_sums_amended (l1 l2 : String) (items : List RawItem)
    (l2tot l1tot : Int) (isLast : Bool) :
    (chkRun 0 0 (rowsToDraw l1 l2 items l2tot l1tot isLast)).isSome = true := by
  unfold rowsToDraw
  exact chkRun_trimTrailing _ 0 0 (chkRun_untrimmed l1 l2 items l2tot l1tot isLast)

/-! ### Theorems for C4 (amended) -/

/-- C4 (amended): the control-break step flushes and resets exactly as
follows.  In app.py's sequencer (`draw_detail_pages`) a key counts as
changed only when the new key is non-empty and differs from the open run
(`appChg`): the L4 footer (with the open label and current subtotal) is
emitted iff an L4 run is open and L4 or L3 so changed; the L3 footer iff
an L3 run is open and L3 so changed; the flushed subtotal is reset before
the item's amount is accumulated; and a changed non-empty key opens a
fresh header, so recurring non-adjacent values form separate runs.  In
pdf_exporter.py's variant (`draw_detail_table`) the same holds with any
difference counting as a change (`expChg`), including a change to the
empty value — the behaviour the claim describes. -/
theorem C4_control_break_amended (st : SeqSt) (it : RawItem) :
    ((Row.footerL4 st.curr4 st.sub4 ∈ (appStep st it).2) ↔
      (st.curr4 != "" && (appChg it.l4 st.curr4 || appChg it.l3 st.curr3)) = true) ∧
    ((Row.footerL3 st.curr3 st.sub3 ∈ (appStep st it).2) ↔
      (st.curr3 != "" && appChg it.l3 st.curr3) = true) ∧
    ((appStep st it).1.sub4 =
      (if (st.curr4 != "" && (appChg it.l4 st.curr4 || appChg it.l3 st.curr3)) = true
        then 0 else st.sub4) + it.amt) ∧
    ((appStep st it).1.sub3 =
      (if (st.curr3 != "" && appChg it.l3 st.curr3) = true then 0 else st.sub3)
        + it.amt) ∧
    ((Row.headerL3 it.l3 ∈ (appStep st it).2) ↔ appChg it.l3 st.curr3 = true) ∧
    ((Row.headerL4 it.l4 ∈ (appStep st it).2) ↔ appChg it.l4 st.curr4 = true) ∧
    ((Row.footerL4 st.curr4 st.sub4 ∈ (expStep st it).2) ↔
      (st.curr4 != "" && (expChg it.l4 st.curr4 || expChg it.l3 st.curr3)) = true) ∧
    ((Row.footerL3 st.curr3 st.sub3 ∈ (expStep st it).2) ↔
      (st.curr3 != "" && expChg it.l3 st.curr3) = true) := by
  obtain ⟨c3, c4, s3, s4⟩ := st
  obtain ⟨b1, b2, b3, b4, nm, amt⟩ := it
  by_cases hc3 : c3 = "" <;> by_cases hc4 : c4 = "" <;>
    by_cases h3 : b3 = c3 <;> by_cases h4 : b4 = c4 <;>
      by_cases he3 : b3 = "" <;> by_cases he4 : b4 = "" <;>
        simp_all [appStep, expStep, appChg, expChg]

/-! ### The layout loop draws every block exactly once -/

theorem origRows_append (a b : List Draw) :
    origRows (a ++ b) = origRows a ++ origRows b := by
  induction a with
  | nil => rfl
  | cons d ds ih => cases d <;> simp [origRows, ih]

theorem origRows_breakDraws (g : Geom) (l1 l2 : String) (st : BSt) (b : Row) :
    origRows (breakDraws g l1 l2 st b).1 = [] := by
  obtain ⟨y, page, l2s, c3, c4⟩ := st
  cases c3 <;> cases c4 <;>
    (simp only [breakDraws, origRows_append]
     split <;> simp [origRows])

theorem origRows_blockStep (g : Geom) (l1 l2 : String) (isLast : Bool)
    (st : BSt) (b : Row) :
    origRows (blockStep g l1 l2 isLast st b).2 = [b] := by
  simp only [blockStep]
  split
  · rw [origRows_append, origRows_breakDraws]
    rfl
  · rfl

theorem origRows_layoutBlocks (g : Geom) (l1 l2 : String) (isLast : Bool)
    (bs : List Row) : ∀ st, origRows (layoutBlocks g l1 l2 isLast st bs).2 = bs := by
  induction bs with
  | nil => intro st; rfl
  | cons b rest ih =>
    intro st
    simp only [layoutBlocks]
    rw [origRows_append, origRows_blockStep, ih]
    rfl

theorem origRows_layoutL2s (g : Geom) (rows : List RawItem) (l1 : String)
    (l1tot : Int) (l2s : List String) : ∀ st,
    origRows (layoutL2s g rows l1 l1tot st l2s).2 = blocksForL2s rows l1 l1tot l2s := by
  induction l2s with
  | nil => intro st; rfl
  | cons l2 rest ih =>
    intro st
    simp only [layoutL2s, blocksForL2s]
    rw [origRows_append, origRows_layoutBlocks, ih]

theorem origRows_layoutL1s (g : Geom) (rows : List RawItem) (l1s : List String) :
    ∀ st isFirst, origRows (layoutL1s g rows st isFirst l1s).2 =
      detailBlocks rows l1s := by
  induction l1s with
  | nil => intro st isF; rfl
  | cons l1 rest ih =>
    intro st isF
    simp only [layoutL1s, detailBlocks, origRows]
    rw [origRows_append, origRows_layoutL2s, ih]

/-- Every run of the detail-page layout draws exactly the sequencer's
blocks, once each, in order — whatever the geometry and start page. -/
theorem origRows_detailRun (g : Geom) (p : Nat) (rows : List RawItem) :
    origRows (detailRun g p rows).2 = detailBlocks rows (seenL1 rows) :=
  origRows_layoutL1s g rows (seenL1 rows) ⟨g.yStart, p⟩ true

/-- C6 (amended): no rows-per-page precondition exists.  Even for a
geometry whose derived rows-per-page is non-positive, generation does not
fail: the layout runs to completion and draws every block of every group,
exactly as with any other geometry. -/
theorem C6_no_precondition_amended (g : Geom) (p : Nat) (rows : List RawItem)
    (_h : specRowsPerPage g ≤ 0) :
    origRows (detailRun g p rows).2 = detailBlocks rows (seenL1 rows) :=
  origRows_detailRun g p rows

/-- C6 (witness): the amended theorem at a concrete degenerate geometry. -/
theorem C6_no_precondition_witness :
    origRows (detailRun degenerateGeom 1 c5Rows).2 = detailBlocks c5Rows (seenL1 c5Rows) :=
  C6_no_precondition_amended degenerateGeom 1 c5Rows (by decide)

/-! ### Theorems for C3 (amended) -/

theorem rowsItemSum_append (a b : List Row) :
    rowsItemSum (a ++ b) = rowsItemSum a + rowsItemSum b := by
  simp [rowsItemSum]

theorem rowsItemSum_cons (r : Row) (l : List Row) :
    rowsItemSum (r :: l) = rowAmt r + rowsItemSum l := by
  simp [rowsItemSum]

theorem rowsItemSum_appStep (st : SeqSt) (it : RawItem) :
    rowsItemSum (appStep st it).2 = it.amt := by
  obtain ⟨c3, c4, s3, s4⟩ := st
  obtain ⟨b1, b2, b3, b4, nm, amt⟩ := it
  by_cases hc3 : c3 = "" <;> by_cases hc4 : c4 = "" <;>
    by_cases h3 : b3 = c3 <;> by_cases h4 : b4 = c4 <;>
      by_cases he3 : b3 = "" <;> by_cases he4 : b4 = "" <;>
        simp_all [appStep, rowsItemSum, rowAmt]

theorem rowsItemSum_appFlush (st : SeqSt) : rowsItemSum (appFlush st) = 0 := by
  obtain ⟨c3, c4, s3, s4⟩ := st
  by_cases hc3 : c3 = "" <;> by_cases hc4 : c4 = "" <;>
    simp_all [appFlush, rowsItemSum, rowAmt]

theorem rowsItemSum_appLoop (items : List RawItem) : ∀ st,
    rowsItemSum (appLoop st items).2 = amtSum items := by
  induction items with
  | nil => intro st; simp [appLoop, rowsItemSum, amtSum]
  | cons it its ih =>
    intro st
    simp only [appLoop]
    rw [rowsItemSum_append, rowsItemSum_appStep, ih]
    simp [amtSum]

theorem rowsItemSum_itemRows (items : List RawItem) :
    rowsItemSum (itemRows items) = amtSum items := by
  simp [itemRows, rowsItemSum_append, rowsItemSum_appLoop, rowsItemSum_appFlush]

theorem isEmptyRow_eq (r : Row) (h : isEmptyRow r = true) : r = Row.empty := by
  cases r <;> simp_all [isEmptyRow]

theorem rowsItemSum_trimTrailing (l : List Row) :
    rowsItemSum (trimTrailing l) = rowsItemSum l := by
  have hsplit : l = trimTrailing l ++ (l.reverse.takeWhile isEmptyRow).reverse := by
    conv_lhs => rw [← List.reverse_reverse l,
      ← List.takeWhile_append_dropWhile (p := isEmptyRow) (l := l.reverse)]
    rw [List.reverse_append]
    rfl
  have hz : rowsItemSum ((l.reverse.takeWhile isEmptyRow).reverse) = 0 := by
    apply List.sum_eq_zero
    intro x hx
    obtain ⟨r, hr, hxr⟩ := List.mem_map.mp hx
    have hre : r ∈ l.reverse.takeWhile isEmptyRow := by simpa using hr
    have := isEmptyRow_eq r (List.mem_takeWhile_imp hre)
    subst this
    simpa [rowAmt] using hxr.symm
  conv_rhs => rw [hsplit]
  rw [rowsItemSum_append, hz, add_zero]

theorem rowsItemSum_rowsToDraw (l1 l2 : String) (items : List RawItem)
    (l2tot l1tot : Int) (isLast : Bool) :
    rowsItemSum (rowsToDraw l1 l2 items l2tot l1tot isLast) = amtSum items := by
  unfold rowsToDraw
  rw [rowsItemSum_trimTrailing, rowsItemSum_append, rowsItemSum_append,
    rowsItemSum_cons, rowsItemSum_itemRows]
  cases isLast <;> simp [rowsItemSum, rowAmt]

theorem rowsItemSum_blocksForL2s (rows : List RawItem) (l1 : String)
    (l1tot : Int) : ∀ l2s : List String,
    rowsItemSum (blocksForL2s rows l1 l1tot l2s) =
      (l2s.map (fun l2 => amtSum (itemsFor rows l1 l2))).sum := by
  intro l2s
  induction l2s with
  | nil => rfl
  | cons l2 rest ih =>
    simp only [blocksForL2s]
    rw [rowsItemSum_append, rowsItemSum_rowsToDraw, ih]
    simp

theorem rowsItemSum_detailBlocks (rows : List RawItem) : ∀ l1s : List String,
    rowsItemSum (detailBlocks rows l1s) =
      (l1s.map (fun l1 =>
        ((seenL2 rows l1).map (fun l2 => amtSum (itemsFor rows l1 l2))).sum)).sum := by
  intro l1s
  induction l1s with
  | nil => rfl
  | cons l1 rest ih =>
    simp only [detailBlocks]
    rw [rowsItemSum_append, rowsItemSum_blocksForL2s, ih]
    simp

/-! ### Partitioning the input rows by their first-seen keys -/

theorem sum_map_filter_add {α : Type} (p : α → Bool) (f : α → Int) (l : List α) :
    ((l.filter p).map f).sum + ((l.filter (fun a => !(p a))).map f).sum =
      (l.map f).sum := by
  induction l with
  | nil => simp
  | cons a l ih =>
    by_cases h : p a = true <;>
      simp only [List.filter_cons, h] <;> simp [h] <;> omega

theorem firstSeen_aux_mem (xs : List String) : ∀ (acc : List String) (y : String),
    (y ∈ xs.foldl (fun acc x => if x ∈ acc then acc else acc ++ [x]) acc ↔
      y ∈ acc ∨ y ∈ xs) := by
  induction xs with
  | nil => simp
  | cons x xs ih =>
    intro acc y
    simp only [List.foldl_cons]
    rw [ih]
    by_cases hx : x ∈ acc
    · simp only [if_pos hx, List.mem_cons]
      constructor
      · rintro (h | h)
        · exact Or.inl h
        · exact Or.inr (Or.inr h)
      · rintro (h | h | h)
        · exact Or.inl h
        · exact Or.inl (h ▸ hx)
        · exact Or.inr h
    · simp only [if_neg hx, List.mem_append, List.mem_singleton, List.mem_cons]
      tauto

theorem firstSeen_mem (xs : List String) (y : String) :
    y ∈ firstSeen xs ↔ y ∈ xs := by
  simpa [firstSeen] using firstSeen_aux_mem xs [] y

theorem firstSeen_aux_nodup (xs : List String) : ∀ acc : List String,
    acc.Nodup →
    (xs.foldl (fun acc x => if x ∈ acc then acc else acc ++ [x]) acc).Nodup := by
  induction xs with
  | nil => intro acc h; exact h
  | cons x xs ih =>
    intro acc h
    simp only [List.foldl_cons]
    apply ih
    by_cases hx : x ∈ acc
    · simpa [hx] using h
    · rw [if_neg hx, List.nodup_append]
      refine ⟨h, List.nodup_singleton x, fun a ha hax => ?_⟩
      have hax2 : a = x := by simpa using hax
      exact hx (hax2 ▸ ha)

theorem firstSeen_nodup (xs : List String) : (firstSeen xs).Nodup :=
  firstSeen_aux_nodup xs [] List.nodup_nil

/-- Summing elementwise over a duplicate-free key list that covers the
rows equals summing the rows directly. -/
theorem partition_sum {α : Type} (key : α → String) (f : α → Int) :
    ∀ (ks : List String) (l : List α), ks.Nodup →
      (∀ a ∈ l, key a ∈ ks) →
      (ks.map (fun k => ((l.filter (fun a => key a == k)).map f).sum)).sum =
        (l.map f).sum := by
  intro ks
  induction ks with
  | nil =>
    intro l _ hcov
    have hl : l = [] := List.eq_nil_iff_forall_not_mem.mpr
      (fun a ha => by simpa using hcov a ha)
    simp [hl]
  | cons k ks ih =>
    intro l hnd hcov
    obtain ⟨hk_not, hks_nd⟩ := List.nodup_cons.mp hnd
    have hbuckets : ∀ k2 ∈ ks,
        (l.filter (fun a => key a == k2)) =
          ((l.filter (fun a => !(key a == k))).filter (fun a => key a == k2)) := by
      intro k2 hk2
      rw [List.filter_filter]
      apply List.filter_congr
      intro a _
      by_cases h : key a = k2
      · have hne2 : k2 ≠ k := fun hh => hk_not (hh ▸ hk2)
        simp [h, hne2]
      · simp [h]
    have hmapcongr :
        ks.map (fun k2 => ((l.filter (fun a => key a == k2)).map f).sum) =
          ks.map (fun k2 =>
            (((l.filter (fun a => !(key a == k))).filter
              (fun a => key a == k2)).map f).sum) := by
      apply List.map_congr_left
      intro k2 hk2
      rw [hbuckets k2 hk2]
    have hcov2 : ∀ a ∈ l.filter (fun a => !(key a == k)), key a ∈ ks := by
      intro a ha
      obtain ⟨hal, hfa⟩ := List.mem_filter.mp ha
      have hne : key a ≠ k := by simpa using hfa
      rcases List.mem_cons.mp (hcov a hal) with h | h
      · exact absurd h hne
      · exact h
    simp only [List.map_cons, List.sum_cons, hmapcongr,
      ih (l.filter (fun a => !(key a == k))) hks_nd hcov2]
    exact sum_map_filter_add (fun a => key a == k) f l

/-! ### C3: assembling the drawn total -/

theorem amtSum_itemsFor (rows : List RawItem) (l1 l2 : String) :
    amtSum (itemsFor rows l1 l2) =
      ((rows.filter (fun r => keyL1 r == l1 && keyL2 r == l2 && r.name != "")).map
        RawItem.amt).sum := by
  simp only [amtSum, itemsFor, List.map_map]
  congr 1

theorem seenL2_sound (rows : List RawItem) (l1 k : String)
    (hk : k ∈ seenL2 rows l1) : k ≠ "" := by
  rw [seenL2, firstSeen_mem] at hk
  obtain ⟨r, hr, hkey⟩ := List.mem_map.mp hk
  obtain ⟨_, hpred⟩ := List.mem_filter.mp hr
  subst hkey
  intro hke
  simp [hke] at hpred

theorem seenL1_sound (rows : List RawItem) (k : String)
    (hk : k ∈ seenL1 rows) : k ≠ "" := by
  rw [seenL1, firstSeen_mem] at hk
  obtain ⟨r, hr, hkey⟩ := List.mem_map.mp hk
  obtain ⟨_, hpred⟩ := List.mem_filter.mp hr
  subst hkey
  intro hke
  simp [hke] at hpred

theorem inner_bucket_sum (rows : List RawItem) (l1 : String) :
    ((seenL2 rows l1).map (fun l2 => amtSum (itemsFor rows l1 l2))).sum =
      ((rows.filter (fun r =>
        keyL1 r == l1 && keyL2 r != "" && r.name != "")).map RawItem.amt).sum := by
  have hmap : (seenL2 rows l1).map (fun l2 => amtSum (itemsFor rows l1 l2)) =
      (seenL2 rows l1).map (fun k =>
        (((rows.filter (fun r => keyL1 r == l1 && keyL2 r != "" && r.name != "")).filter
          (fun r => keyL2 r == k)).map RawItem.amt).sum) := by
    apply List.map_congr_left
    intro k hk
    have hkne := seenL2_sound rows l1 k hk
    have hfil : rows.filter (fun r => keyL1 r == l1 && keyL2 r == k && r.name != "") =
        rows.filter (fun a =>
          keyL2 a == k && (keyL1 a == l1 && keyL2 a != "" && a.name != "")) := by
      apply List.filter_congr
      intro r _
      have hkb : (k != "") = true := by simp [hkne]
      by_cases h2 : keyL2 r = k
      · by_cases ha : keyL1 r = l1 <;> by_cases hb : r.name = "" <;>
          simp [h2, ha, hb, hkb]
      · have h2b : (keyL2 r == k) = false := by simp [h2]
        simp [h2b]
    rw [amtSum_itemsFor, List.filter_filter, hfil]
  rw [hmap]
  apply partition_sum keyL2 RawItem.amt (seenL2 rows l1)
    (rows.filter (fun r => keyL1 r == l1 && keyL2 r != "" && r.name != ""))
    (firstSeen_nodup _)
  intro r hr
  obtain ⟨hrl, hpred⟩ := List.mem_filter.mp hr
  rw [seenL2, firstSeen_mem]
  apply List.mem_map.mpr
  refine ⟨r, List.mem_filter.mpr ⟨hrl, ?_⟩, rfl⟩
  simp only [Bool.and_eq_true] at hpred ⊢
  exact ⟨hpred.1.1, hpred.1.2⟩

/-- C3 (amended): for every geometry, start page and input list, the sum
of the amounts of all Item rows drawn on the detail pages equals the sum
of the amounts of the input items the data preparation retains (non-empty
stripped L1 and L2 and a truthy name): no retained amount is lost or
duplicated across page breaks. -/
theorem C3_conservation_amended (g : Geom) (p : Nat) (rows : List RawItem) :
    drawItemSum (detailRun g p rows).2 =
      ((rows.filter retained).map RawItem.amt).sum := by
  rw [drawItemSum, origRows_detailRun, rowsItemSum_detailBlocks]
  have hmap : (seenL1 rows).map (fun l1 =>
      ((seenL2 rows l1).map (fun l2 => amtSum (itemsFor rows l1 l2))).sum) =
      (seenL1 rows).map (fun k =>
        (((rows.filter retained).filter (fun r => keyL1 r == k)).map
          RawItem.amt).sum) := by
    apply List.map_congr_left
    intro k hk
    have hkne := seenL1_sound rows k hk
    have hfil : rows.filter (fun r =>
        keyL1 r == k && keyL2 r != "" && r.name != "") =
        rows.filter (fun a => keyL1 a == k && retained a) := by
      apply List.filter_congr
      intro r _
      have hkb : (k != "") = true := by simp [hkne]
      by_cases h1 : keyL1 r = k
      · by_cases ha : keyL2 r = "" <;> by_cases hb : r.name = "" <;>
          simp [retained, h1, ha, hb, hkb]
      · have h1b : (keyL1 r == k) = false := by simp [h1]
        simp [h1b]
    rw [inner_bucket_sum, List.filter_filter, hfil]
  rw [hmap]
  have hcov : ∀ r ∈ rows.filter retained, keyL1 r ∈ seenL1 rows := by
    intro r hr
    obtain ⟨hrl, hpred⟩ := List.mem_filter.mp hr
    rw [seenL1, firstSeen_mem]
    apply List.mem_map.mpr
    refine ⟨r, List.mem_filter.mpr ⟨hrl, ?_⟩, rfl⟩
    simp only [retained, Bool.and_eq_true] at hpred
    exact hpred.1.1
  exact partition_sum keyL1 RawItem.amt (seenL1 rows) (rows.filter retained)
    (firstSeen_nodup _) hcov

end EstimateTool
